import Mathlib

/-!
Verification model of the session-affinity subsystem of an HTTP reverse
proxy (stateful-session filter, cookie session-state codec, per-route
configuration resolution, and the host-override contract with the
load-balancing core). The repository ships the integration test of the
subsystem; the filter, codec and load balancer themselves are modelled
from the specification. Addresses, tokens and header values are byte
lists (`List Nat`, each byte below 256).
-/

namespace StatefulSession

/-- Modelled from the spec: the base64 alphabet map on 6-bit values
(RFC 4648 standard alphabet), as used by the byte-safe reversible
encoding of the session-state codec. -/
def b64Char (n : Nat) : Nat :=
  if n < 26 then 65 + n
  else if n < 52 then 97 + (n - 26)
  else if n < 62 then 48 + (n - 52)
  else if n = 62 then 43
  else 47

/-- Modelled from the spec: inverse of the base64 alphabet map; `none` on
any byte outside the alphabet (the padding byte 61 included). -/
def b64CharDec (c : Nat) : Option Nat :=
  if 65 ≤ c ∧ c ≤ 90 then some (c - 65)
  else if 97 ≤ c ∧ c ≤ 122 then some (c - 97 + 26)
  else if 48 ≤ c ∧ c ≤ 57 then some (c - 48 + 52)
  else if c = 43 then some 62
  else if c = 47 then some 63
  else none

/-- Modelled from the spec: base64 encoding of a byte sequence, three
bytes to four alphabet characters, padded with 61 (the ASCII code of the
padding character). The codec applies this to the rendered address text. -/
def b64Encode : List Nat → List Nat
  | [] => []
  | [a] => [b64Char (a / 4), b64Char (a % 4 * 16), 61, 61]
  | [a, b] => [b64Char (a / 4), b64Char (b / 16 + a % 4 * 16), b64Char (b % 16 * 4), 61]
  | a :: b :: c :: rest =>
    b64Char (a / 4) :: b64Char (b / 16 + a % 4 * 16) :: b64Char (c / 64 + b % 16 * 4) ::
      b64Char (c % 64) :: b64Encode rest

/-- Modelled from the spec: decoding of one final base64 quad, accepting
one or two padding bytes in the last two positions only. -/
def b64DecodeGroup (a b c d : Nat) : Option (List Nat) :=
  match b64CharDec a, b64CharDec b with
  | some x, some y =>
    if c = 61 then
      if d = 61 then some [x * 4 + y / 16] else none
    else
      match b64CharDec c with
      | some z =>
        if d = 61 then some [x * 4 + y / 16, y % 16 * 16 + z / 4]
        else
          match b64CharDec d with
          | some w => some [x * 4 + y / 16, y % 16 * 16 + z / 4, z % 4 * 64 + w]
          | none => none
      | none => none
  | _, _ => none

/-- Modelled from the spec: total base64 decoding; `none` on length not a
multiple of four, on bytes outside the alphabet, and on padding anywhere
but the tail of the final quad. -/
def b64Decode : List Nat → Option (List Nat)
  | [] => some []
  | a :: b :: c :: d :: rest =>
    if rest = [] then b64DecodeGroup a b c d
    else
      match b64CharDec a, b64CharDec b, b64CharDec c, b64CharDec d with
      | some x, some y, some z, some w =>
        (b64Decode rest).map fun tail =>
          (x * 4 + y / 16) :: (y % 16 * 16 + z / 4) :: (z % 4 * 64 + w) :: tail
      | _, _, _, _ => none
  | _ => none

/-- Modelled from the spec: decimal digit rendering of a natural number,
most significant digit first, as ASCII bytes; fuel-driven so that it is
structurally recursive. -/
def toDecimalAux : Nat → Nat → List Nat
  | 0, _ => []
  | fuel + 1, p => if p = 0 then [] else toDecimalAux fuel (p / 10) ++ [48 + p % 10]

/-- Modelled from the spec: ASCII decimal rendering of a natural number
(used for the port in the address text and for Max-Age in Set-Cookie). -/
def toDecimal (p : Nat) : List Nat :=
  if p = 0 then [48] else toDecimalAux p p

/-- Modelled from the spec: parse an ASCII decimal digit string; `none`
when empty or when any byte is not a digit. -/
def parseDigits (ds : List Nat) : Option Nat :=
  if ds ≠ [] ∧ ds.all (fun d => 48 ≤ d ∧ d ≤ 57) then
    some (ds.foldl (fun acc d => acc * 10 + (d - 48)) 0)
  else none

/-- A backend address: host text (IPv4 or bracketed IPv6 literal, as
bytes) and port. -/
structure BackendAddress where
  host : List Nat
  port : Nat
deriving DecidableEq

/-- A valid address: non-empty host made of bytes, and a port that fits
in 16 bits. -/
def ValidAddress (a : BackendAddress) : Prop :=
  a.host ≠ [] ∧ (∀ b ∈ a.host, b < 256) ∧ a.port < 65536

instance (a : BackendAddress) : Decidable (ValidAddress a) := by
  unfold ValidAddress; infer_instance

/-- Modelled from the spec: the canonical address text, the exact byte
sequence the codec encodes: host, one colon (byte 58), decimal port. -/
def addressText (a : BackendAddress) : List Nat :=
  a.host ++ 58 :: toDecimal a.port

/-- Helper splitting a reversed byte list at the first colon byte; on
the reversal of `host ++ 58 :: port` this recovers host and port text. -/
def splitRevColon : List Nat → Option (List Nat × List Nat)
  | [] => none
  | b :: rest =>
    if b = 58 then some (rest.reverse, [])
    else
      match splitRevColon rest with
      | some (h, p) => some (h, p ++ [b])
      | none => none

/-- Modelled from the spec: parse address text as host and port, split at
the last colon (so bracketed IPv6 hosts containing colons work); `none`
when there is no colon, the host is empty, the port text is not decimal,
or the port exceeds 65535. -/
def parseAddress (bs : List Nat) : Option BackendAddress :=
  match splitRevColon bs.reverse with
  | some (h, pd) =>
    if h = [] then none
    else
      match parseDigits pd with
      | some p => if p < 65536 then some ⟨h, p⟩ else none
      | none => none
  | none => none

/-- Modelled from the spec: `encode` of the session-state codec — render
the address as canonical host:port text and base64 it. The missing
source is the cookie-based session-state codec. -/
def encodeAddress (a : BackendAddress) : List Nat :=
  b64Encode (addressText a)

/-- Modelled from the spec: `decode` of the session-state codec — base64
decode, then parse as host:port; absence on any failure. The missing
source is the cookie-based session-state codec. -/
def decodeToken (t : List Nat) : Option BackendAddress :=
  (b64Decode t).bind parseAddress

/-- Bytes of an ASCII string, a convenience for concrete values. -/
def strBytes (s : String) : List Nat :=
  s.toList.map Char.toNat

/-- Modelled from the spec: `CookieSessionConfig` — cookie name, optional
path and ttl in seconds, identifying which cookie the filter reads and
the Set-Cookie attributes it emits. -/
structure CookieSessionConfig where
  name : List Nat
  path : Option (List Nat)
  ttl : Nat
deriving DecidableEq

/-- Modelled from the spec: `RoutePolicy` — the closed per-route variant:
inherit the global filter configuration, disable session logic, or
override it wholly with a route-level configuration. -/
inductive RoutePolicy where
  | inherit
  | disabled
  | override (cfg : CookieSessionConfig)
deriving DecidableEq

/-- Modelled from the spec: the RouteSessionConfig resolver — the
effective policy for one request: `none` means session logic is wholly
inactive; `Override` replaces the global configuration with no
field-level merging. -/
def effectiveConfig (global : CookieSessionConfig) : RoutePolicy → Option CookieSessionConfig
  | RoutePolicy.inherit => some global
  | RoutePolicy.disabled => none
  | RoutePolicy.override cfg => some cfg

/-- Modelled from the spec: the cluster as the load-balancing core sees
it — the backend set and a point-in-time health view. -/
structure Cluster where
  backends : List BackendAddress
  healthy : BackendAddress → Bool

/-- The currently healthy members of the backend set. -/
def healthyBackends (cl : Cluster) : List BackendAddress :=
  cl.backends.filter cl.healthy

/-- Modelled from the spec: the state of the default selection algorithm
(round-robin position), owned by the load-balancing core. -/
structure LbState where
  rrIndex : Nat
deriving DecidableEq

/-- Modelled from the spec: the default selection algorithm (round-robin
over the healthy backends); `none` only when no backend is healthy. -/
def defaultSelect (hs : List BackendAddress) (st : LbState) :
    Option (BackendAddress × LbState) :=
  if h : hs = [] then none
  else
    some (hs.get ⟨st.rrIndex % hs.length,
      Nat.mod_lt _ (List.length_pos.mpr h)⟩, ⟨st.rrIndex + 1⟩)

/-- Modelled from the spec: `HostOverrideSelector` — the load-balancing
core consults the request-scoped override hint first; when the hinted
address matches a currently healthy member it is selected directly,
bypassing the default algorithm, otherwise the core silently falls back
to the default algorithm. -/
def selectBackend (cl : Cluster) (hint : Option BackendAddress) (st : LbState) :
    Option (BackendAddress × LbState) :=
  match hint with
  | some a =>
    if a ∈ healthyBackends cl then some (a, st)
    else defaultSelect (healthyBackends cl) st
  | none => defaultSelect (healthyBackends cl) st

/-- An HTTP request as the filter sees it: the cookie pairs of the
Cookie header, in order. -/
structure HttpRequest where
  cookies : List (List Nat × List Nat)

/-- Modelled from the spec: request-cookie lookup by exact name; the
first match wins when duplicates exist. -/
def findCookie (cookies : List (List Nat × List Nat)) (name : List Nat) :
    Option (List Nat) :=
  match cookies with
  | [] => none
  | (n, v) :: rest => if n = name then some v else findCookie rest name

/-- Modelled from the spec: a cookie value wrapped in double quotes (byte
34) is stripped to the bare value before decoding. -/
def stripQuotes (v : List Nat) : List Nat :=
  if 2 ≤ v.length ∧ v.head? = some 34 ∧ v.getLast? = some 34 then
    (v.drop 1).dropLast
  else v

/-- Modelled from the spec: the request-phase hint — find the cookie
under the effective policy name, strip quotes, decode; absence on any
failure. -/
def sessionHint (cfg : CookieSessionConfig) (req : HttpRequest) :
    Option BackendAddress :=
  (findCookie req.cookies cfg.name).bind fun v => decodeToken (stripQuotes v)

/-- Modelled from the spec: the Set-Cookie wire format —
name="token"; Path=path; Max-Age=ttl; HttpOnly; Secure, with Path
omitted when unconfigured. -/
def makeSetCookieValue (name token : List Nat) (path : Option (List Nat))
    (ttl : Nat) : List Nat :=
  name ++ strBytes "=\"" ++ token ++ strBytes "\"" ++
    (match path with
     | some p => strBytes "; Path=" ++ p
     | none => []) ++
    strBytes "; Max-Age=" ++ toDecimal ttl ++ strBytes "; HttpOnly; Secure"

/-- The Set-Cookie header value the filter emits for a selected backend
under an effective configuration. -/
def freshCookie (cfg : CookieSessionConfig) (b : BackendAddress) : List Nat :=
  makeSetCookieValue cfg.name (encodeAddress b) cfg.path cfg.ttl

/-- The outcome of one request: the backend that served it, the
Set-Cookie header values added to the response, and the load-balancer
state afterwards. -/
structure ProcessResult where
  backend : BackendAddress
  setCookies : List (List Nat)
  state : LbState
deriving DecidableEq

/-- Modelled from the spec: the StatefulSessionFilter over one request
and response. Resolve the effective policy; when disabled, skip decode
and encode entirely; otherwise decode the hint, let the core select the
backend, and on the response emit one Set-Cookie exactly when the hint
did not already equal the selected backend. `none` only when no backend
is healthy. -/
def processRequest (global : CookieSessionConfig) (policy : RoutePolicy)
    (cl : Cluster) (st : LbState) (req : HttpRequest) : Option ProcessResult :=
  match effectiveConfig global policy with
  | none => (selectBackend cl none st).map fun p => ⟨p.1, [], p.2⟩
  | some cfg =>
    let hint := sessionHint cfg req
    (selectBackend cl hint st).map fun p =>
      if hint = some p.1 then ⟨p.1, [], p.2⟩
      else ⟨p.1, [freshCookie cfg p.1], p.2⟩

/-- Replay of the same request: process it `n + 1` times, threading the
load-balancer state. -/
def processReplay (global : CookieSessionConfig) (policy : RoutePolicy)
    (cl : Cluster) (req : HttpRequest) : Nat → LbState → Option ProcessResult
  | 0, st => processRequest global policy cl st req
  | n + 1, st =>
    match processRequest global policy cl st req with
    | some r => processReplay global policy cl req n r.state
    | none => none

/-- The upstream addresses of the integration test: 127.0.0.1:5000i. -/
def testAddr (i : Nat) : BackendAddress :=
  ⟨strBytes "127.0.0.1", 50000 + i⟩

/-- The test cluster: four distinct backends, all healthy. -/
def testCluster : Cluster :=
  ⟨[testAddr 0, testAddr 1, testAddr 2, testAddr 3], fun _ => true⟩

/-- The global filter configuration of the integration test. -/
def globalCfg : CookieSessionConfig :=
  ⟨strBytes "global-session-cookie", some (strBytes "/path"), 120⟩

/-- The route-override configuration of the integration test. -/
def routeCfg : CookieSessionConfig :=
  ⟨strBytes "route-session-cookie", some (strBytes "/path"), 120⟩

/-- A cookie value wrapped in double quotes, as the test client sends it. -/
def quoteWrap (t : List Nat) : List Nat :=
  34 :: (t ++ [34])

/-- The alphabet map is inverted by its decoder on every 6-bit value. -/
theorem b64CharDec_b64Char : ∀ n < 64, b64CharDec (b64Char n) = some n := by decide

/-- No alphabet character is the padding byte. -/
theorem b64Char_ne_pad : ∀ n < 64, b64Char n ≠ 61 := by decide

/-- Bit arithmetic of one full base64 quad. -/
theorem quad_arith (a b c : Nat) (_ha : a < 256) (hb : b < 256) (hc : c < 256) :
    a / 4 * 4 + (b / 16 + a % 4 * 16) / 16 = a ∧
    (b / 16 + a % 4 * 16) % 16 * 16 + (c / 64 + b % 16 * 4) / 4 = b ∧
    (c / 64 + b % 16 * 4) % 4 * 64 + c % 64 = c := by omega

/-- Bit arithmetic of a quad holding one byte. -/
theorem pad2_arith (a : Nat) : a / 4 * 4 + a % 4 * 16 / 16 = a := by omega

/-- Bit arithmetic of a quad holding two bytes. -/
theorem pad1_arith (a b : Nat) (hb : b < 256) :
    a / 4 * 4 + (b / 16 + a % 4 * 16) / 16 = a ∧
    (b / 16 + a % 4 * 16) % 16 * 16 + b % 16 * 4 / 4 = b := by omega

/-- Encoding a non-empty byte sequence yields a non-empty token. -/
theorem b64Encode_ne_nil (x : Nat) (xs : List Nat) : b64Encode (x :: xs) ≠ [] := by
  match xs with
  | [] => simp [b64Encode]
  | [y] => simp [b64Encode]
  | y :: z :: rest => simp [b64Encode]

/-- Base64 round trip on arbitrary byte sequences. -/
theorem b64Encode_roundtrip : ∀ bs : List Nat, (∀ b ∈ bs, b < 256) →
    b64Decode (b64Encode bs) = some bs
  | [], _ => rfl
  | [a], h => by
    have ha : a < 256 := h a (by simp)
    simp only [b64Encode, b64Decode, if_pos, b64DecodeGroup]
    rw [b64CharDec_b64Char _ (by omega), b64CharDec_b64Char _ (by omega)]
    simp only [if_pos]
    rw [pad2_arith a]
  | [a, b], h => by
    have ha : a < 256 := h a (by simp)
    have hb : b < 256 := h b (by simp)
    simp only [b64Encode, b64Decode, if_pos, b64DecodeGroup]
    rw [b64CharDec_b64Char _ (by omega), b64CharDec_b64Char _ (by omega)]
    dsimp only
    rw [if_neg (b64Char_ne_pad _ (by omega))]
    rw [b64CharDec_b64Char _ (by omega)]
    dsimp only
    have h2 := pad1_arith a b hb
    rw [h2.1, h2.2]
  | [a, b, c], h => by
    have ha : a < 256 := h a (by simp)
    have hb : b < 256 := h b (by simp)
    have hc : c < 256 := h c (by simp)
    simp only [b64Encode, b64Decode, if_pos, b64DecodeGroup]
    rw [b64CharDec_b64Char _ (by omega), b64CharDec_b64Char _ (by omega)]
    dsimp only
    rw [if_neg (b64Char_ne_pad _ (by omega))]
    rw [b64CharDec_b64Char _ (by omega)]
    dsimp only
    rw [if_neg (b64Char_ne_pad _ (by omega))]
    rw [b64CharDec_b64Char _ (by omega)]
    dsimp only
    have h3 := quad_arith a b c ha hb hc
    rw [h3.1, h3.2.1, h3.2.2]
  | a :: b :: c :: d :: rest, h => by
    have ha : a < 256 := h a (by simp)
    have hb : b < 256 := h b (by simp)
    have hc : c < 256 := h c (by simp)
    have ih := b64Encode_roundtrip (d :: rest) (fun x hx => h x (by simp at hx ⊢; tauto))
    simp only [b64Encode, b64Decode]
    rw [if_neg (b64Encode_ne_nil d rest)]
    rw [b64CharDec_b64Char _ (by omega), b64CharDec_b64Char _ (by omega),
        b64CharDec_b64Char _ (by omega), b64CharDec_b64Char _ (by omega)]
    dsimp only
    rw [ih]
    have h3 := quad_arith a b c ha hb hc
    simp only [Option.map_some', Option.some.injEq, List.cons.injEq, and_true]
    refine ⟨h3.1, ?_, ?_⟩ <;> omega

/-- Decimal rendering of zero is empty for any fuel. -/
theorem toDecimalAux_zero : ∀ f, toDecimalAux f 0 = [] := by
  intro f; cases f <;> simp [toDecimalAux]

/-- The fuel of the decimal renderer is irrelevant once sufficient. -/
theorem toDecimalAux_fuel : ∀ p f1 f2, p ≤ f1 → p ≤ f2 →
    toDecimalAux f1 p = toDecimalAux f2 p := by
  intro p
  induction p using Nat.strong_induction_on with
  | _ p ih =>
    intro f1 f2 h1 h2
    rcases Nat.eq_zero_or_pos p with hp | hp
    · subst hp; rw [toDecimalAux_zero, toDecimalAux_zero]
    · match f1, f2 with
      | g1 + 1, g2 + 1 =>
        simp only [toDecimalAux, if_neg (Nat.pos_iff_ne_zero.mp hp)]
        rw [ih (p / 10) (Nat.div_lt_self hp (by omega))
            g1 g2 (by omega) (by omega)]
      | 0, _ => omega
      | _ + 1, 0 => omega

/-- Every rendered decimal byte is an ASCII digit. -/
theorem toDecimalAux_digits : ∀ f p d, d ∈ toDecimalAux f p → 48 ≤ d ∧ d ≤ 57 := by
  intro f
  induction f with
  | zero => intro p d hd; simp [toDecimalAux] at hd
  | succ g ih =>
    intro p d hd
    by_cases hp : p = 0
    · subst hp; simp [toDecimalAux] at hd
    · simp only [toDecimalAux, if_neg hp, List.mem_append, List.mem_singleton] at hd
      rcases hd with hd | hd
      · exact ih _ _ hd
      · omega

/-- Rendering a positive number yields at least one digit. -/
theorem toDecimalAux_ne_nil (f p : Nat) (hp : p ≠ 0) (hf : p ≤ f) :
    toDecimalAux f p ≠ [] := by
  match f with
  | 0 => omega
  | g + 1 => simp [toDecimalAux, if_neg hp]

/-- Every byte of a rendered decimal number is an ASCII digit. -/
theorem toDecimal_digits (p d : Nat) (hd : d ∈ toDecimal p) : 48 ≤ d ∧ d ≤ 57 := by
  unfold toDecimal at hd
  by_cases hp : p = 0
  · simp [hp] at hd; omega
  · rw [if_neg hp] at hd; exact toDecimalAux_digits p p d hd

/-- A rendered decimal number is never empty. -/
theorem toDecimal_ne_nil (p : Nat) : toDecimal p ≠ [] := by
  unfold toDecimal
  by_cases hp : p = 0
  · simp [hp]
  · rw [if_neg hp]; exact toDecimalAux_ne_nil p p hp le_rfl

/-- Folding the digit accumulator over a rendered number recovers it. -/
theorem toDecimalAux_foldl : ∀ p f, p ≤ f → ∀ acc,
    List.foldl (fun acc d => acc * 10 + (d - 48)) acc (toDecimalAux f p)
      = acc * 10 ^ (toDecimalAux f p).length + p := by
  intro p
  induction p using Nat.strong_induction_on with
  | _ p ih =>
    intro f hf acc
    rcases Nat.eq_zero_or_pos p with hp | hp
    · subst hp; rw [toDecimalAux_zero]; simp
    · match f with
      | 0 => omega
      | g + 1 =>
        simp only [toDecimalAux, if_neg (Nat.pos_iff_ne_zero.mp hp)]
        rw [List.foldl_append]
        have hq : p / 10 < p := Nat.div_lt_self hp (by omega)
        rw [ih (p / 10) hq g (by omega) acc]
        simp only [List.foldl_cons, List.foldl_nil, List.length_append,
          List.length_singleton]
        rw [pow_succ, ← Nat.mul_assoc]
        generalize acc * 10 ^ (toDecimalAux g (p / 10)).length = B
        omega

/-- Decimal round trip: parsing a rendered number recovers it. -/
theorem parseDigits_toDecimal (p : Nat) : parseDigits (toDecimal p) = some p := by
  unfold parseDigits
  rw [if_pos]
  · congr 1
    by_cases hp : p = 0
    · subst hp; rfl
    · unfold toDecimal
      rw [if_neg hp]
      rw [toDecimalAux_foldl p p le_rfl 0]
      simp
  · constructor
    · exact toDecimal_ne_nil p
    · rw [List.all_eq_true]
      intro d hd
      have := toDecimal_digits p d hd
      simp only [decide_eq_true_eq]
      omega

/-- Splitting the reversal of text ++ colon ++ tail recovers both parts
when the text holds no colon byte. -/
theorem splitRevColon_append (l h : List Nat) (hl : ∀ x ∈ l, x ≠ 58) :
    splitRevColon (l ++ 58 :: h) = some (h.reverse, l.reverse) := by
  induction l with
  | nil => simp [splitRevColon]
  | cons b l ih =>
    have hb : b ≠ 58 := hl b (by simp)
    simp only [List.cons_append, splitRevColon, if_neg hb, List.append_eq]
    rw [ih (fun x hx => hl x (by simp [hx]))]
    simp

/-- Parsing the canonical text of a valid address recovers it. -/
theorem parseAddress_addressText (a : BackendAddress) (h : ValidAddress a) :
    parseAddress (addressText a) = some a := by
  obtain ⟨hhost, _hbytes, hport⟩ := h
  unfold parseAddress addressText
  have hrev : (a.host ++ 58 :: toDecimal a.port).reverse
      = (toDecimal a.port).reverse ++ 58 :: a.host.reverse := by
    simp [List.reverse_append]
  rw [hrev]
  rw [splitRevColon_append _ _ (by
    intro x hx
    have := toDecimal_digits a.port x (by simpa using hx)
    omega)]
  simp only [List.reverse_reverse]
  rw [if_neg (by simpa using hhost)]
  rw [parseDigits_toDecimal]
  dsimp only
  rw [if_pos hport]

/-- The canonical address text of a valid address is made of bytes. -/
theorem addressText_bytes (a : BackendAddress) (h : ValidAddress a) :
    ∀ b ∈ addressText a, b < 256 := by
  obtain ⟨_, hbytes, _⟩ := h
  intro b hb
  unfold addressText at hb
  simp only [List.mem_append, List.mem_cons] at hb
  rcases hb with hb | hb | hb
  · exact hbytes b hb
  · omega
  · have := toDecimal_digits a.port b hb; omega

/-- Codec round trip on any valid address. -/
theorem decodeToken_encodeAddress (a : BackendAddress) (h : ValidAddress a) :
    decodeToken (encodeAddress a) = some a := by
  unfold decodeToken encodeAddress
  rw [b64Encode_roundtrip (addressText a) (addressText_bytes a h)]
  simp [parseAddress_addressText a h]

/-- Every decoded alphabet value is a 6-bit value. -/
theorem b64CharDec_lt (c x : Nat) (h : b64CharDec c = some x) : x < 64 := by
  unfold b64CharDec at h
  split_ifs at h <;> simp_all <;> omega

/-- Soundness of base64 decoding: a successful decode implies the
output is made of bytes, the input length is a multiple of four, and
every input byte is an alphabet byte or the padding byte. -/
theorem b64Decode_sound : ∀ t bs, b64Decode t = some bs →
    (∀ x ∈ bs, x < 256) ∧ t.length % 4 = 0 ∧
    (∀ b ∈ t, b64CharDec b ≠ none ∨ b = 61)
  | [], bs, h => by
    simp [b64Decode] at h
    subst h
    refine ⟨by simp, by simp, by simp⟩
  | [a], bs, h => by simp [b64Decode] at h
  | [a, b], bs, h => by simp [b64Decode] at h
  | [a, b, c], bs, h => by simp [b64Decode] at h
  | a :: b :: c :: d :: rest, bs, h => by
    by_cases hr : rest = []
    · subst hr
      simp only [b64Decode, if_pos rfl] at h
      unfold b64DecodeGroup at h
      cases ha : b64CharDec a <;> rw [ha] at h
      · simp at h
      next x =>
      cases hb : b64CharDec b <;> rw [hb] at h
      · simp at h
      next y =>
      have hx := b64CharDec_lt a x ha
      have hy := b64CharDec_lt b y hb
      dsimp only at h
      by_cases hc61 : c = 61
      · rw [if_pos hc61] at h
        by_cases hd61 : d = 61
        · rw [if_pos hd61] at h
          injection h with h
          subst h
          refine ⟨?_, by simp, ?_⟩
          · intro z hz
            simp at hz
            omega
          · intro e he
            simp at he
            rcases he with he | he | he | he <;> subst he <;> simp [ha, hb, hc61, hd61]
        · rw [if_neg hd61] at h; simp at h
      · rw [if_neg hc61] at h
        cases hc : b64CharDec c <;> rw [hc] at h
        · simp at h
        next z =>
        have hz := b64CharDec_lt c z hc
        dsimp only at h
        by_cases hd61 : d = 61
        · rw [if_pos hd61] at h
          injection h with h
          subst h
          refine ⟨?_, by simp, ?_⟩
          · intro e he
            simp at he
            omega
          · intro e he
            simp at he
            rcases he with he | he | he | he <;> subst he <;> simp [ha, hb, hc, hd61]
        · rw [if_neg hd61] at h
          cases hd : b64CharDec d <;> rw [hd] at h
          · simp at h
          next w =>
          have hw := b64CharDec_lt d w hd
          dsimp only at h
          injection h with h
          subst h
          refine ⟨?_, by simp, ?_⟩
          · intro e he
            simp at he
            omega
          · intro e he
            simp at he
            rcases he with he | he | he | he <;> subst he <;> simp [ha, hb, hc, hd]
    · simp only [b64Decode, if_neg hr] at h
      cases ha : b64CharDec a <;> rw [ha] at h
      · simp at h
      next x =>
      cases hb : b64CharDec b <;> rw [hb] at h
      · simp at h
      next y =>
      cases hc : b64CharDec c <;> rw [hc] at h
      · simp at h
      next z =>
      cases hd : b64CharDec d <;> rw [hd] at h
      · simp at h
      next w =>
      dsimp only at h
      cases htail : b64Decode rest with
      | none => rw [htail] at h; simp at h
      | some tail =>
        rw [htail] at h
        simp only [Option.map_some', Option.some.injEq] at h
        subst h
        have ih := b64Decode_sound rest tail htail
        have hx := b64CharDec_lt a x ha
        have hy := b64CharDec_lt b y hb
        have hz := b64CharDec_lt c z hc
        have hw := b64CharDec_lt d w hd
        refine ⟨?_, ?_, ?_⟩
        · intro e he
          simp only [List.mem_cons] at he
          rcases he with he | he | he | he
          · omega
          · omega
          · omega
          · exact ih.1 e he
        · simp only [List.length_cons]
          omega
        · intro e he
          simp only [List.mem_cons] at he
          rcases he with he | he | he | he | he
          · subst he; simp [ha]
          · subst he; simp [hb]
          · subst he; simp [hc]
          · subst he; simp [hd]
          · exact ih.2.2 e he

/-- The host part returned by the colon split is made of input bytes. -/
theorem splitRevColon_mem : ∀ l h p, splitRevColon l = some (h, p) →
    ∀ x ∈ h, x ∈ l := by
  intro l
  induction l with
  | nil => intro h p hl; simp [splitRevColon] at hl
  | cons b rest ih =>
    intro h p hl x hx
    by_cases hb : b = 58
    · subst hb
      simp only [splitRevColon, if_pos, Option.some.injEq, Prod.mk.injEq] at hl
      obtain ⟨rfl, rfl⟩ := hl
      simp at hx
      simp [hx]
    · simp only [splitRevColon, if_neg hb] at hl
      cases hr : splitRevColon rest with
      | none => rw [hr] at hl; simp at hl
      | some hp =>
        rw [hr] at hl
        obtain ⟨h0, p0⟩ := hp
        simp only [Option.some.injEq, Prod.mk.injEq] at hl
        have := ih h0 p0 hr x (by rw [← hl.1] at hx; exact hx)
        simp [this]

/-- A successfully parsed address is valid. -/
theorem parseAddress_valid (bs : List Nat) (hbs : ∀ x ∈ bs, x < 256)
    (a : BackendAddress) (h : parseAddress bs = some a) : ValidAddress a := by
  unfold parseAddress at h
  cases hs : splitRevColon bs.reverse with
  | none => rw [hs] at h; simp at h
  | some hp =>
    rw [hs] at h
    obtain ⟨hst, pd⟩ := hp
    dsimp only at h
    by_cases hh : hst = []
    · rw [if_pos hh] at h; simp at h
    · rw [if_neg hh] at h
      cases hpd : parseDigits pd with
      | none => rw [hpd] at h; simp at h
      | some p =>
        rw [hpd] at h
        dsimp only at h
        by_cases hp16 : p < 65536
        · rw [if_pos hp16] at h
          injection h with h
          subst h
          refine ⟨hh, ?_, hp16⟩
          intro x hx
          exact hbs x (by
            have := splitRevColon_mem bs.reverse hst pd hs x hx
            simpa using this)
        · rw [if_neg hp16] at h; simp at h

/-- A successfully decoded token yields a valid address. -/
theorem decodeToken_valid (t : List Nat) (a : BackendAddress)
    (h : decodeToken t = some a) : ValidAddress a := by
  unfold decodeToken at h
  cases hb : b64Decode t with
  | none => rw [hb] at h; simp at h
  | some bs =>
    rw [hb] at h
    simp only [Option.some_bind] at h
    exact parseAddress_valid bs (b64Decode_sound t bs hb).1 a h

/-- Stripping quotes from a quote-wrapped value recovers the value. -/
theorem stripQuotes_wrap (v : List Nat) : stripQuotes (34 :: (v ++ [34])) = v := by
  unfold stripQuotes
  rw [if_pos]
  · simp
  · refine ⟨by simp, by simp, ?_⟩
    rw [show (34 : Nat) :: (v ++ [34]) = ((34 :: v) ++ [34]) from rfl]
    exact List.getLast?_concat _

/-- A value that does not start with a quote is left untouched. -/
theorem stripQuotes_bare (v : List Nat) (h : v.head? ≠ some 34) :
    stripQuotes v = v := by
  unfold stripQuotes
  rw [if_neg]
  intro hc
  exact h hc.2.1

/-- No alphabet character is the double-quote byte. -/
theorem b64Char_ne_34 (n : Nat) : b64Char n ≠ 34 := by
  unfold b64Char
  split_ifs <;> omega

/-- The first byte of a non-empty encoding is an alphabet character. -/
theorem b64Encode_head (x : Nat) (xs : List Nat) :
    (b64Encode (x :: xs)).head? = some (b64Char (x / 4)) := by
  match xs with
  | [] => simp [b64Encode]
  | [y] => simp [b64Encode]
  | y :: z :: rest => simp [b64Encode]

/-- An encoded address never starts with a double quote. -/
theorem encodeAddress_head (a : BackendAddress) (h : a.host ≠ []) :
    (encodeAddress a).head? ≠ some 34 := by
  unfold encodeAddress addressText
  cases hh : a.host with
  | nil => exact absurd hh h
  | cons x xs =>
    rw [List.cons_append]
    rw [b64Encode_head]
    intro hc
    injection hc with hc
    exact b64Char_ne_34 _ hc

/-- Quote stripping leaves a bare encoded address untouched. -/
theorem stripQuotes_encodeAddress (a : BackendAddress) (h : a.host ≠ []) :
    stripQuotes (encodeAddress a) = encodeAddress a :=
  stripQuotes_bare _ (encodeAddress_head a h)

/-- With session logic active and a hint that is a healthy member, the
filter selects exactly the hinted backend, leaves the default-algorithm
state untouched and emits no cookie. -/
theorem processRequest_hint_healthy (global : CookieSessionConfig)
    (policy : RoutePolicy) (cfg : CookieSessionConfig) (cl : Cluster)
    (st : LbState) (req : HttpRequest) (a : BackendAddress)
    (hcfg : effectiveConfig global policy = some cfg)
    (hhint : sessionHint cfg req = some a)
    (hmem : a ∈ cl.backends) (hhealthy : cl.healthy a = true) :
    processRequest global policy cl st req = some ⟨a, [], st⟩ := by
  unfold processRequest
  rw [hcfg]
  dsimp only
  rw [hhint]
  unfold selectBackend
  dsimp only
  rw [if_pos (show a ∈ healthyBackends cl from List.mem_filter.mpr ⟨hmem, hhealthy⟩)]
  simp

/-- With session logic active and no hint, or a hint that is not a
healthy member, processing is the default selection plus a fresh cookie
for the chosen backend. -/
theorem processRequest_hint_absent_or_stale (global : CookieSessionConfig)
    (policy : RoutePolicy) (cfg : CookieSessionConfig) (cl : Cluster)
    (st : LbState) (req : HttpRequest)
    (hcfg : effectiveConfig global policy = some cfg)
    (hstale : ∀ a, sessionHint cfg req = some a → a ∉ healthyBackends cl) :
    processRequest global policy cl st req
      = (defaultSelect (healthyBackends cl) st).map
          (fun p => ⟨p.1, [freshCookie cfg p.1], p.2⟩) := by
  unfold processRequest
  rw [hcfg]
  dsimp only
  unfold selectBackend
  cases hh : sessionHint cfg req with
  | none =>
    cases hd : defaultSelect (healthyBackends cl) st with
    | none => simp
    | some p =>
      simp only [Option.map_some']
      rw [if_neg (by simp)]
  | some a =>
    dsimp only
    rw [if_neg (hstale a hh)]
    cases hd : defaultSelect (healthyBackends cl) st with
    | none => simp
    | some p =>
      simp only [Option.map_some']
      rw [if_neg]
      intro hc
      injection hc with hc
      have hp1 : p.1 ∈ healthyBackends cl := by
        unfold defaultSelect at hd
        by_cases hnil : healthyBackends cl = []
        · rw [dif_pos hnil] at hd
          exact absurd hd (by simp)
        · rw [dif_neg hnil] at hd
          injection hd with hd
          subst hd
          exact List.get_mem _ _ _
      rw [hc] at hh
      exact absurd hp1 (hstale p.1 hh)

/-- The default algorithm on a non-empty healthy set: round-robin pick
and advance. -/
theorem defaultSelect_some (hs : List BackendAddress) (st : LbState)
    (hne : hs ≠ []) :
    defaultSelect hs st = some (hs.get ⟨st.rrIndex % hs.length,
      Nat.mod_lt _ (List.length_pos.mpr hne)⟩, ⟨st.rrIndex + 1⟩) := by
  unfold defaultSelect
  rw [dif_neg hne]

/-- The default algorithm only picks members of the healthy set. -/
theorem defaultSelect_mem (hs : List BackendAddress) (st : LbState)
    (p : BackendAddress × LbState) (h : defaultSelect hs st = some p) :
    p.1 ∈ hs := by
  unfold defaultSelect at h
  by_cases hnil : hs = []
  · rw [dif_pos hnil] at h
    exact absurd h (by simp)
  · rw [dif_neg hnil] at h
    injection h with h
    subst h
    exact List.get_mem _ _ _

/-- C1: for every valid backend address, in both IPv4 and IPv6 literal
forms and for varying port widths, decoding the encoding of the address
yields the address exactly. -/
theorem C1_decode_encode_roundtrip (a : BackendAddress) (h : ValidAddress a) :
    decodeToken (encodeAddress a) = some a :=
  decodeToken_encodeAddress a h

/-- Witness for C1 at an IPv4 literal with a five-digit port and a
bracketed IPv6 literal with a three-digit port. -/
theorem C1_decode_encode_roundtrip_witness :
    decodeToken (encodeAddress ⟨strBytes "127.0.0.1", 50001⟩)
        = some ⟨strBytes "127.0.0.1", 50001⟩ ∧
    decodeToken (encodeAddress ⟨strBytes "[2001:db8::1]", 443⟩)
        = some ⟨strBytes "[2001:db8::1]", 443⟩ :=
  ⟨C1_decode_encode_roundtrip _ (by decide), C1_decode_encode_roundtrip _ (by decide)⟩

/-- C2: decode is total on arbitrary byte strings — it yields absence or
a valid address, absence on any input whose length is not a multiple of
four, and absence on any input holding a byte that is neither an
alphabet byte nor padding. -/
theorem C2_decode_total (t : List Nat) :
    (decodeToken t = none ∨ ∃ a, ValidAddress a ∧ decodeToken t = some a) ∧
    (t.length % 4 ≠ 0 → decodeToken t = none) ∧
    ((∃ b, b ∈ t ∧ b64CharDec b = none ∧ b ≠ 61) → decodeToken t = none) := by
  refine ⟨?_, ?_, ?_⟩
  · cases h : decodeToken t with
    | none => exact Or.inl rfl
    | some a => exact Or.inr ⟨a, decodeToken_valid t a h, rfl⟩
  · intro hlen
    cases hb : b64Decode t with
    | none => unfold decodeToken; rw [hb]; rfl
    | some bs => exact absurd (b64Decode_sound t bs hb).2.1 hlen
  · rintro ⟨b, hbt, hdec, hne⟩
    cases hb : b64Decode t with
    | none => unfold decodeToken; rw [hb]; rfl
    | some bs =>
      rcases (b64Decode_sound t bs hb).2.2 b hbt with h | h
      · exact absurd hdec h
      · exact absurd h hne

/-- Witness for C2: a one-byte input has wrong length; an input holding
byte 33 has an encoding error; both decode to absence. -/
theorem C2_decode_total_witness :
    decodeToken [33] = none ∧ decodeToken (strBytes "not-base64!!") = none :=
  ⟨(C2_decode_total [33]).2.1 (by decide),
   (C2_decode_total (strBytes "not-base64!!")).2.2 ⟨33, by decide, by decide, by decide⟩⟩

/-- C3: a request whose session cookie under the effective policy name
decodes to a healthy member of the backend set is served by exactly that
backend, bypassing the default algorithm (whose state is untouched), and
the response carries no Set-Cookie. -/
theorem C3_valid_affinity (global cfg : CookieSessionConfig) (policy : RoutePolicy)
    (cl : Cluster) (st : LbState) (req : HttpRequest) (v : List Nat)
    (a : BackendAddress)
    (hcfg : effectiveConfig global policy = some cfg)
    (hfind : findCookie req.cookies cfg.name = some v)
    (hdec : decodeToken (stripQuotes v) = some a)
    (hmem : a ∈ cl.backends) (hhealthy : cl.healthy a = true) :
    processRequest global policy cl st req = some ⟨a, [], st⟩ := by
  apply processRequest_hint_healthy global policy cfg cl st req a hcfg _ hmem hhealthy
  unfold sessionHint
  rw [hfind]
  simpa using hdec

/-- Witness for C3: the test cluster, the global cookie name, a quoted
token for backend 1: backend 1 serves and no cookie is emitted. -/
theorem C3_valid_affinity_witness :
    processRequest globalCfg RoutePolicy.inherit testCluster ⟨5⟩
        ⟨[(strBytes "global-session-cookie", quoteWrap (encodeAddress (testAddr 1)))]⟩
      = some ⟨testAddr 1, [], ⟨5⟩⟩ :=
  C3_valid_affinity globalCfg globalCfg RoutePolicy.inherit testCluster ⟨5⟩
    ⟨[(strBytes "global-session-cookie", quoteWrap (encodeAddress (testAddr 1)))]⟩
    (quoteWrap (encodeAddress (testAddr 1))) (testAddr 1)
    (by decide) (by decide) (by decide) (by decide) (by decide)

/-- C4: when the decoded cookie address is not a healthy member, the core
falls back to the default algorithm — processing equals default selection,
not an error — and the response carries exactly one fresh Set-Cookie whose
token encodes the backend actually chosen. -/
theorem C4_stale_affinity (global cfg : CookieSessionConfig) (policy : RoutePolicy)
    (cl : Cluster) (st : LbState) (req : HttpRequest) (v : List Nat)
    (a : BackendAddress)
    (hcfg : effectiveConfig global policy = some cfg)
    (hfind : findCookie req.cookies cfg.name = some v)
    (hdec : decodeToken (stripQuotes v) = some a)
    (hstale : a ∉ healthyBackends cl)
    (hvalid : ∀ b ∈ cl.backends, ValidAddress b) :
    processRequest global policy cl st req
      = (defaultSelect (healthyBackends cl) st).map
          (fun p => ⟨p.1, [freshCookie cfg p.1], p.2⟩) ∧
    ∀ r, processRequest global policy cl st req = some r →
      r.setCookies = [freshCookie cfg r.backend] ∧
      decodeToken (encodeAddress r.backend) = some r.backend := by
  have hhint : sessionHint cfg req = some a := by
    unfold sessionHint
    rw [hfind]
    simpa using hdec
  have hmain := processRequest_hint_absent_or_stale global policy cfg cl st req hcfg
    (by
      intro x hx
      rw [hhint] at hx
      injection hx with hx
      rw [← hx]
      exact hstale)
  refine ⟨hmain, ?_⟩
  intro r hr
  rw [hmain] at hr
  cases hd : defaultSelect (healthyBackends cl) st with
  | none => rw [hd] at hr; simp at hr
  | some p =>
    rw [hd] at hr
    simp only [Option.map_some', Option.some.injEq] at hr
    have hp1 : p.1 ∈ cl.backends :=
      List.mem_filter.mp (defaultSelect_mem _ _ _ hd) |>.1
    rw [← hr]
    exact ⟨rfl, decodeToken_encodeAddress p.1 (hvalid p.1 hp1)⟩

/-- Witness for C4: a cookie naming the unknown backend 127.0.0.1:50005
on the test cluster: default selection picks backend 0, advances the
rotation, and a fresh cookie for backend 0 is attached. -/
theorem C4_stale_affinity_witness :
    processRequest globalCfg RoutePolicy.inherit testCluster ⟨0⟩
        ⟨[(strBytes "global-session-cookie", quoteWrap (encodeAddress (testAddr 5)))]⟩
      = some ⟨testAddr 0, [freshCookie globalCfg (testAddr 0)], ⟨1⟩⟩ :=
  (C4_stale_affinity globalCfg globalCfg RoutePolicy.inherit testCluster ⟨0⟩
    ⟨[(strBytes "global-session-cookie", quoteWrap (encodeAddress (testAddr 5)))]⟩
    (quoteWrap (encodeAddress (testAddr 5))) (testAddr 5)
    (by decide) (by decide) (by decide) (by decide) (by decide)).1.trans (by decide)

/-- No result of replaying any request on a disabled route carries a
cookie. -/
theorem processReplay_disabled_nocookie (global : CookieSessionConfig)
    (cl : Cluster) (req : HttpRequest) :
    ∀ n st r, processReplay global RoutePolicy.disabled cl req n st = some r →
      r.setCookies = [] := by
  intro n
  induction n with
  | zero =>
    intro st r h
    unfold processReplay processRequest at h
    dsimp [effectiveConfig] at h
    cases hs : selectBackend cl none st with
    | none => rw [hs] at h; simp at h
    | some p =>
      rw [hs] at h
      simp only [Option.map_some', Option.some.injEq] at h
      rw [← h]
  | succ n ih =>
    intro st r h
    unfold processReplay at h
    cases h0 : processRequest global RoutePolicy.disabled cl st req with
    | none => rw [h0] at h; simp at h
    | some r0 =>
      rw [h0] at h
      exact ih r0.state r h

/-- C5: on a route whose per-route configuration is Disabled the filter
does no decode and no encode — processing any request equals hint-free
default selection — and no response of any replayed sequence of requests
ever carries a Set-Cookie, cookies present or not. -/
theorem C5_route_disabled (global : CookieSessionConfig) (cl : Cluster)
    (st : LbState) (req : HttpRequest) :
    processRequest global RoutePolicy.disabled cl st req
      = (selectBackend cl none st).map (fun p => ⟨p.1, [], p.2⟩) ∧
    ∀ n r, processReplay global RoutePolicy.disabled cl req n st = some r →
      r.setCookies = [] :=
  ⟨rfl, fun n r h => processReplay_disabled_nocookie global cl req n st r h⟩

/-- Witness for C5: two replayed requests bearing a valid backend-1
cookie on the disabled route are served by rotation (backends 0 then 1)
and the second response carries no cookie. -/
theorem C5_route_disabled_witness :
    processReplay globalCfg RoutePolicy.disabled testCluster
        ⟨[(strBytes "global-session-cookie", quoteWrap (encodeAddress (testAddr 1)))]⟩ 1 ⟨0⟩
      = some ⟨testAddr 1, [], ⟨2⟩⟩ ∧
    ([] : List (List Nat)) = [] :=
  ⟨by decide,
   (C5_route_disabled globalCfg testCluster ⟨0⟩
      ⟨[(strBytes "global-session-cookie", quoteWrap (encodeAddress (testAddr 1)))]⟩).2
     1 ⟨testAddr 1, [], ⟨2⟩⟩ (by decide)⟩

/-- C6: an Override per-route configuration wholly replaces the global
configuration: the resolver yields exactly the route config; a request
with no cookie under the route name gets default selection plus a fresh
cookie under the route name; a request presenting the route-name cookie
with an in-cluster healthy address is honored with no new Set-Cookie. -/
theorem C6_route_override (global rcfg : CookieSessionConfig) (cl : Cluster)
    (st st2 : LbState) (req1 req2 : HttpRequest) (v : List Nat) (a : BackendAddress)
    (hname1 : findCookie req1.cookies rcfg.name = none)
    (hfind2 : findCookie req2.cookies rcfg.name = some v)
    (hdec2 : decodeToken (stripQuotes v) = some a)
    (hmem : a ∈ cl.backends) (hhealthy : cl.healthy a = true) :
    effectiveConfig global (RoutePolicy.override rcfg) = some rcfg ∧
    processRequest global (RoutePolicy.override rcfg) cl st req1
      = (defaultSelect (healthyBackends cl) st).map
          (fun p => ⟨p.1, [freshCookie rcfg p.1], p.2⟩) ∧
    processRequest global (RoutePolicy.override rcfg) cl st2 req2
      = some ⟨a, [], st2⟩ := by
  refine ⟨rfl, ?_, ?_⟩
  · apply processRequest_hint_absent_or_stale global (RoutePolicy.override rcfg) rcfg cl st req1 rfl
    intro x hx
    unfold sessionHint at hx
    rw [hname1] at hx
    simp at hx
  · apply processRequest_hint_healthy global (RoutePolicy.override rcfg) rcfg cl st2 req2 a rfl _ hmem hhealthy
    unfold sessionHint
    rw [hfind2]
    simpa using hdec2

/-- Witness for C6: a request carrying only the global-name cookie on the
overriding route gets default selection (backend 0) and a fresh cookie
under the route name; a request with the route-name cookie for backend 2
is served by backend 2 with no cookie. -/
theorem C6_route_override_witness :
    processRequest globalCfg (RoutePolicy.override routeCfg) testCluster ⟨0⟩
        ⟨[(strBytes "global-session-cookie", quoteWrap (encodeAddress (testAddr 1)))]⟩
      = some ⟨testAddr 0, [freshCookie routeCfg (testAddr 0)], ⟨1⟩⟩ ∧
    processRequest globalCfg (RoutePolicy.override routeCfg) testCluster ⟨7⟩
        ⟨[(strBytes "route-session-cookie", quoteWrap (encodeAddress (testAddr 2)))]⟩
      = some ⟨testAddr 2, [], ⟨7⟩⟩ :=
  have h := C6_route_override globalCfg routeCfg testCluster ⟨0⟩ ⟨7⟩
    ⟨[(strBytes "global-session-cookie", quoteWrap (encodeAddress (testAddr 1)))]⟩
    ⟨[(strBytes "route-session-cookie", quoteWrap (encodeAddress (testAddr 2)))]⟩
    (quoteWrap (encodeAddress (testAddr 2))) (testAddr 2)
    (by decide) (by decide) (by decide) (by decide) (by decide)
  ⟨h.2.1.trans (by decide), h.2.2⟩

/-- C7: whenever the filter emits a session cookie — session logic active
and the hint absent, undecodable or different from the selected backend —
exactly one Set-Cookie header is added, never duplicated, of the form
name, equals, quoted base64 token of the selected backend, Path,
Max-Age, HttpOnly, Secure, from the effective policy; when the hint
already equals the selected backend nothing is emitted. -/
theorem C7_set_cookie_format (global cfg : CookieSessionConfig) (policy : RoutePolicy)
    (cl : Cluster) (st : LbState) (req : HttpRequest) (r : ProcessResult)
    (hcfg : effectiveConfig global policy = some cfg)
    (hr : processRequest global policy cl st req = some r) :
    (sessionHint cfg req = some r.backend → r.setCookies = []) ∧
    (sessionHint cfg req ≠ some r.backend →
      r.setCookies = [cfg.name ++ strBytes "=\"" ++ b64Encode (addressText r.backend)
        ++ strBytes "\""
        ++ (match cfg.path with
            | some p => strBytes "; Path=" ++ p
            | none => [])
        ++ strBytes "; Max-Age=" ++ toDecimal cfg.ttl
        ++ strBytes "; HttpOnly; Secure"]) := by
  unfold processRequest at hr
  rw [hcfg] at hr
  dsimp only at hr
  cases hs : selectBackend cl (sessionHint cfg req) st with
  | none => rw [hs] at hr; simp at hr
  | some p =>
    rw [hs] at hr
    simp only [Option.map_some', Option.some.injEq] at hr
    by_cases heq : sessionHint cfg req = some p.1
    · rw [if_pos heq] at hr
      rw [← hr]
      refine ⟨fun _ => rfl, fun hne => ?_⟩
      exact absurd heq hne
    · rw [if_neg heq] at hr
      rw [← hr]
      refine ⟨fun habs => absurd habs heq, fun _ => rfl⟩

/-- Witness for C7: a request with no cookie on the test cluster: the
emitted header equals the spec format byte for byte. -/
theorem C7_set_cookie_format_witness :
    [globalCfg.name ++ strBytes "=\"" ++ b64Encode (addressText (testAddr 0))
        ++ strBytes "\"" ++ strBytes "; Path=" ++ strBytes "/path"
        ++ strBytes "; Max-Age=" ++ toDecimal 120 ++ strBytes "; HttpOnly; Secure"]
      = [strBytes "global-session-cookie=\"MTI3LjAuMC4xOjUwMDAw\"; Path=/path; Max-Age=120; HttpOnly; Secure"] ∧
    ([freshCookie globalCfg (testAddr 0)] : List (List Nat))
      = [globalCfg.name ++ strBytes "=\"" ++ b64Encode (addressText (testAddr 0))
        ++ strBytes "\""
        ++ (match globalCfg.path with
            | some p => strBytes "; Path=" ++ p
            | none => [])
        ++ strBytes "; Max-Age=" ++ toDecimal globalCfg.ttl
        ++ strBytes "; HttpOnly; Secure"] :=
  ⟨by decide,
   (C7_set_cookie_format globalCfg globalCfg RoutePolicy.inherit testCluster ⟨0⟩
      ⟨[]⟩ ⟨testAddr 0, [freshCookie globalCfg (testAddr 0)], ⟨1⟩⟩
      (by decide) (by decide)).2 (by decide)⟩

/-- C8: replaying an unchanged valid session cookie against an unchanged
stable cluster selects the same backend every time and never emits a
Set-Cookie: the cycle is idempotent for a correct token. -/
theorem C8_idempotent_replay (global cfg : CookieSessionConfig) (policy : RoutePolicy)
    (cl : Cluster) (st : LbState) (req : HttpRequest) (v : List Nat)
    (a : BackendAddress)
    (hcfg : effectiveConfig global policy = some cfg)
    (hfind : findCookie req.cookies cfg.name = some v)
    (hdec : decodeToken (stripQuotes v) = some a)
    (hmem : a ∈ cl.backends) (hhealthy : cl.healthy a = true) :
    ∀ n, processReplay global policy cl req n st = some ⟨a, [], st⟩ := by
  have hhint : sessionHint cfg req = some a := by
    unfold sessionHint
    rw [hfind]
    simpa using hdec
  have hone : ∀ st0 : LbState,
      processRequest global policy cl st0 req = some ⟨a, [], st0⟩ :=
    fun st0 => processRequest_hint_healthy global policy cfg cl st0 req a hcfg hhint hmem hhealthy
  intro n
  induction n with
  | zero => exact hone st
  | succ n ih =>
    unfold processReplay
    rw [hone st]
    exact ih

/-- Witness for C8: three replays of the backend-2 cookie on the test
cluster all serve backend 2, never emit a cookie and leave the rotation
untouched. -/
theorem C8_idempotent_replay_witness :
    processReplay globalCfg RoutePolicy.inherit testCluster
        ⟨[(strBytes "global-session-cookie", quoteWrap (encodeAddress (testAddr 2)))]⟩ 2 ⟨3⟩
      = some ⟨testAddr 2, [], ⟨3⟩⟩ :=
  C8_idempotent_replay globalCfg globalCfg RoutePolicy.inherit testCluster ⟨3⟩
    ⟨[(strBytes "global-session-cookie", quoteWrap (encodeAddress (testAddr 2)))]⟩
    (quoteWrap (encodeAddress (testAddr 2))) (testAddr 2)
    (by decide) (by decide) (by decide) (by decide) (by decide) 2

/-- C9: a session cookie whose value is the encoded token wrapped in
double quotes is treated identically to the bare token: the quotes are
stripped before decoding, the hint carries the decoded address, and
processing is unchanged. -/
theorem C9_quoted_cookie (global cfg : CookieSessionConfig) (policy : RoutePolicy)
    (cl : Cluster) (st : LbState) (rest : List (List Nat × List Nat))
    (a : BackendAddress)
    (hval : ValidAddress a) (hcfg : effectiveConfig global policy = some cfg) :
    sessionHint cfg ⟨(cfg.name, quoteWrap (encodeAddress a)) :: rest⟩ = some a ∧
    processRequest global policy cl st ⟨(cfg.name, quoteWrap (encodeAddress a)) :: rest⟩
      = processRequest global policy cl st ⟨(cfg.name, encodeAddress a) :: rest⟩ := by
  have h1 : sessionHint cfg ⟨(cfg.name, quoteWrap (encodeAddress a)) :: rest⟩ = some a := by
    unfold sessionHint findCookie
    rw [if_pos rfl]
    simp only [Option.some_bind]
    unfold quoteWrap
    rw [stripQuotes_wrap]
    exact decodeToken_encodeAddress a hval
  have h2 : sessionHint cfg ⟨(cfg.name, encodeAddress a) :: rest⟩ = some a := by
    unfold sessionHint findCookie
    rw [if_pos rfl]
    simp only [Option.some_bind]
    rw [stripQuotes_encodeAddress a hval.1]
    exact decodeToken_encodeAddress a hval
  refine ⟨h1, ?_⟩
  unfold processRequest
  rw [hcfg]
  dsimp only
  rw [h1, h2]

/-- Witness for C9: the quoted backend-3 token yields the backend-3 hint
and the same processing as the bare token. -/
theorem C9_quoted_cookie_witness :
    sessionHint globalCfg ⟨[(globalCfg.name, quoteWrap (encodeAddress (testAddr 3)))]⟩
      = some (testAddr 3) ∧
    processRequest globalCfg RoutePolicy.inherit testCluster ⟨0⟩
        ⟨[(globalCfg.name, quoteWrap (encodeAddress (testAddr 3)))]⟩
      = processRequest globalCfg RoutePolicy.inherit testCluster ⟨0⟩
        ⟨[(globalCfg.name, encodeAddress (testAddr 3))]⟩ :=
  C9_quoted_cookie globalCfg globalCfg RoutePolicy.inherit testCluster ⟨0⟩ []
    (testAddr 3) (by decide) (by decide)

/-- C10: with the per-route policy Disabled, backend selection is
independent of the cookie content — any two requests from the same state
process identically — and two consecutive identical requests are served
by different backends under the default rotation (at least two distinct
healthy backends). -/
theorem C10_disabled_independent (global : CookieSessionConfig) (cl : Cluster)
    (st : LbState) (req1 req2 : HttpRequest)
    (hnodup : (healthyBackends cl).Nodup)
    (hlen : 2 ≤ (healthyBackends cl).length) :
    processRequest global RoutePolicy.disabled cl st req1
      = processRequest global RoutePolicy.disabled cl st req2 ∧
    ∀ r1 r2, processRequest global RoutePolicy.disabled cl st req1 = some r1 →
      processRequest global RoutePolicy.disabled cl r1.state req1 = some r2 →
      r1.backend ≠ r2.backend := by
  refine ⟨rfl, ?_⟩
  intro r1 r2 h1 h2
  have hne : healthyBackends cl ≠ [] := by
    intro h
    rw [h] at hlen
    simp at hlen
  have hsel : ∀ st0 : LbState, ∀ r : ProcessResult,
      processRequest global RoutePolicy.disabled cl st0 req1 = some r →
      r = ⟨(healthyBackends cl).get ⟨st0.rrIndex % (healthyBackends cl).length,
          Nat.mod_lt _ (List.length_pos.mpr hne)⟩, [], ⟨st0.rrIndex + 1⟩⟩ := by
    intro st0 r h
    unfold processRequest at h
    dsimp [effectiveConfig] at h
    rw [show selectBackend cl none st0 = defaultSelect (healthyBackends cl) st0 from rfl] at h
    rw [defaultSelect_some _ _ hne] at h
    simp only [Option.map_some', Option.some.injEq] at h
    exact h.symm
  have e1 := hsel st r1 h1
  have e2 := hsel r1.state r2 h2
  rw [e1, e2]
  simp only [e1]
  intro hc
  have hij := (hnodup.get_inj_iff).mp hc
  have : st.rrIndex % (healthyBackends cl).length
      = (st.rrIndex + 1) % (healthyBackends cl).length := by
    have := congrArg Fin.val hij
    simpa using this
  have hdvd : (healthyBackends cl).length ∣ (st.rrIndex + 1) - st.rrIndex :=
    (Nat.modEq_iff_dvd' (by omega)).mp this
  simp only [Nat.add_sub_cancel_left] at hdvd
  have := Nat.le_of_dvd (by omega) hdvd
  omega

/-- Witness for C10: on the test cluster the backend-1 cookie and the
empty cookie process identically under Disabled, and two consecutive
identical requests are served by backends 0 and 1, which differ. -/
theorem C10_disabled_independent_witness :
    processRequest globalCfg RoutePolicy.disabled testCluster ⟨0⟩
        ⟨[(strBytes "global-session-cookie", quoteWrap (encodeAddress (testAddr 1)))]⟩
      = processRequest globalCfg RoutePolicy.disabled testCluster ⟨0⟩ ⟨[]⟩ ∧
    (⟨testAddr 0, [], ⟨1⟩⟩ : ProcessResult).backend
      ≠ (⟨testAddr 1, [], ⟨2⟩⟩ : ProcessResult).backend :=
  have h := C10_disabled_independent globalCfg testCluster ⟨0⟩
    ⟨[(strBytes "global-session-cookie", quoteWrap (encodeAddress (testAddr 1)))]⟩ ⟨[]⟩
    (by decide) (by decide)
  ⟨h.1, h.2 ⟨testAddr 0, [], ⟨1⟩⟩ ⟨testAddr 1, [], ⟨2⟩⟩ (by decide) (by decide)⟩

end StatefulSession
